import Mathlib

/-!
Verification of the KOSIS data-preprocessing pipeline (`data_preprocessing.py`).

The program is a small pandas pipeline: load CSV → normalize numeric text
columns → report missing values → (stub) summary statistics → write CSV.
We embed it shallowly:

* a dataframe is a list of named columns, each a list of cells;
* a cell is missing (`NaN`), a number (Python floats idealized as `ℚ`),
  or a text value;
* `float()` parsing is modelled by `parseFloat`, covering the finite
  decimal grammar (sign, digits, optional fraction, optional exponent,
  surrounding whitespace); `inf`/`nan`/underscore literals are outside the
  model;
* the filesystem is an explicit function from file names to file results, a
  file being its parsed comma-separated rows (the quoting layer of the CSV
  format is bijective and abstracted away);
* pandas' `read_csv` column type inference is modelled by `inferCol`:
  a column whose every field is empty or numeric becomes a numeric column,
  any other column stays text, with empty fields read as missing.
-/

/-- One cell of a dataframe: missing (`NaN`), numeric, or text. -/
inductive Cell where
  | null : Cell
  | num : ℚ → Cell
  | str : String → Cell
deriving DecidableEq, Repr

/-- A dataframe: named columns, each an ordered list of cells. -/
abbrev Df := List (String × List Cell)

/-- Row count of a dataframe (length of its first column, `0` if empty). -/
def nRows : Df → Nat
  | [] => 0
  | p :: _ => p.2.length

/-! ## Decimal digits and Python `float()` parsing -/

/-- Numeric value of a digit character (`'0'` ↦ `0`, …, `'9'` ↦ `9`). -/
def charVal (c : Char) : Nat := c.toNat - 48

/-- Is `c` an ASCII decimal digit? -/
def isDigitChar (c : Char) : Bool := decide (48 ≤ c.toNat) && decide (c.toNat ≤ 57)

/-- Is `c` whitespace (space, tab, newline, carriage return)? -/
def isWsChar (c : Char) : Bool :=
  decide (c.toNat = 32) || decide (c.toNat = 9) || decide (c.toNat = 10) || decide (c.toNat = 13)

/-- Value of a most-significant-first digit string. -/
def digitsVal (l : List Char) : Nat := l.foldl (fun a c => a * 10 + charVal c) 0

/-- The digit character for `d % 10`. -/
def digitChar (d : Nat) : Char := Char.ofNat (48 + d % 10)

/-- Decimal digits of `n`, most significant first, fueled (empty on `n = 0`). -/
def natToCharsAux : Nat → Nat → List Char
  | 0, _ => []
  | fuel + 1, n => if n = 0 then [] else natToCharsAux fuel (n / 10) ++ [digitChar (n % 10)]

/-- Decimal digits of `n`, most significant first, `"0"` for zero. -/
def natToChars (n : Nat) : List Char := if n = 0 then ['0'] else natToCharsAux n n

/-- Pad a digit string with leading zeros to length at least `k`. -/
def padLeft (l : List Char) (k : Nat) : List Char := List.replicate (k - l.length) '0' ++ l

/-- Strip whitespace from both ends, as Python `float()` does. -/
def stripWs (l : List Char) : List Char :=
  ((l.dropWhile isWsChar).reverse.dropWhile isWsChar).reverse

/-- Consume an optional sign; `true` means negative. -/
def parseSign (l : List Char) : Bool × List Char :=
  match l with
  | [] => (false, [])
  | c :: rest =>
    if c = '-' then (true, rest)
    else if c = '+' then (false, rest)
    else (false, c :: rest)

/-- Consume `digits[.digits]` or `.digits`; at least one digit required. -/
def parseMantissa (l : List Char) : Option (ℚ × List Char) :=
  let ip := l.takeWhile isDigitChar
  let r1 := l.dropWhile isDigitChar
  if r1.headD ' ' = '.' then
    let r2 := r1.tail
    let fp := r2.takeWhile isDigitChar
    let r3 := r2.dropWhile isDigitChar
    if ip.isEmpty && fp.isEmpty then none
    else some ((digitsVal ip : ℚ) + (digitsVal fp : ℚ) / 10 ^ fp.length, r3)
  else if ip.isEmpty then none else some ((digitsVal ip : ℚ), r1)

/-- Consume an optional exponent part `(e|E)[+|-]digits`. -/
def parseExpPart (l : List Char) : Option (Int × List Char) :=
  match l with
  | [] => some (0, [])
  | c :: rest =>
    if c = 'e' || c = 'E' then
      let s := parseSign rest
      let ds := s.2.takeWhile isDigitChar
      let r2 := s.2.dropWhile isDigitChar
      if ds.isEmpty then none
      else some ((if s.1 then -(digitsVal ds : Int) else (digitsVal ds : Int)), r2)
    else some (0, c :: rest)

/-- Scale a mantissa by ten to the (possibly negative) exponent. -/
def applyExp (m : ℚ) (e : Int) : ℚ :=
  if 0 ≤ e then m * 10 ^ e.toNat else m / 10 ^ (-e).toNat

/-- Python `float()` on a character list: whole input must be consumed. -/
def parseFloatChars (l : List Char) : Option ℚ :=
  let l0 := stripWs l
  let s := parseSign l0
  match parseMantissa s.2 with
  | none => none
  | some (m, r1) =>
    match parseExpPart r1 with
    | none => none
    | some (e, r2) =>
      if r2.isEmpty then some (applyExp (if s.1 then -m else m) e) else none

/-- Model of Python `float(s)` over the finite decimal grammar. -/
def parseFloat (s : String) : Option ℚ := parseFloatChars s.toList

/-- Model of `str.replace(',', '')`: delete every comma. -/
def stripCommas (s : String) : String :=
  String.mk (s.toList.filter (fun c => !(c = ',')))

/-! ## Cleaning (`clean_population_data`) -/

/-- Is the cell a text value? -/
def isStr : Cell → Bool
  | Cell.str _ => true
  | _ => false

/-- Is the cell missing? -/
def isNull : Cell → Bool
  | Cell.null => true
  | _ => false

/-- pandas dtype `object`: the column holds at least one Python string. -/
def isObjectCol (cs : List Cell) : Bool := cs.any isStr

/-- All-or-nothing elementwise map returning `none` on the first failure. -/
def optMapAll (f : α → Option β) : List α → Option (List β)
  | [] => some []
  | a :: l =>
    match f a with
    | none => none
    | some b =>
      match optMapAll f l with
      | none => none
      | some bl => some (b :: bl)

/-- One cell under `.str.replace(',', '').astype(float)`: a string must parse
after comma stripping (else the whole column conversion raises), a missing
value stays missing, a non-string object becomes `NaN` under the `.str`
accessor. -/
def convertCell : Cell → Option Cell
  | Cell.null => some Cell.null
  | Cell.num _ => some Cell.null
  | Cell.str s => (parseFloat (stripCommas s)).map Cell.num

/-- The `try: df[col] = df[col].str.replace(',', '').astype(float) except: pass`
body: convert every cell or leave the column untouched. -/
def tryConvertCol (cs : List Cell) : List Cell :=
  match optMapAll convertCell cs with
  | some cs2 => cs2
  | none => cs

/-- One iteration of the conversion loop: only `object` columns are touched. -/
def colStep (p : String × List Cell) : String × List Cell :=
  (p.1, if isObjectCol p.2 then tryConvertCol p.2 else p.2)

/-- The whole conversion loop over the columns of the frame. -/
def cleanCols (df : Df) : Df := df.map colStep

/-- `df.isnull().sum()`: per-column count of missing entries. -/
def missingCounts (df : Df) : List (String × Nat) :=
  df.map (fun p => (p.1, p.2.countP isNull))

/-- The printed part of the missing-value report, `missing[missing > 0]`,
shown only when some column has a missing entry. -/
def missingReport (df : Df) : List (String × Nat) :=
  if (missingCounts df).any (fun p => decide (0 < p.2)) then
    (missingCounts df).filter (fun p => decide (0 < p.2))
  else []

/-- `clean_population_data`: `None` passes through; otherwise every `object`
column is converted all-or-nothing, and the missing-value report is printed
(observational only). -/
def clean_population_data : Option Df → Option Df
  | none => none
  | some df => some (cleanCols df)

/-! ## Cleaning (`clean_employment_data`) -/

/-- The hard-coded IT keyword list (dead data: the filter is commented out). -/
def it_keywords : List String :=
  ["소프트웨어", "컴퓨터", "정보", "데이터", "네트워크", "시스템", "프로그래머", "개발"]

/-- `clean_employment_data`: the keyword filter is commented out, so the
function returns its input unchanged (after a progress print). -/
def clean_employment_data : Option Df → Option Df
  | none => none
  | some df => some df

/-! ## Summary statistics (`create_summary_statistics`) -/

/-- `create_summary_statistics`: both aggregation branches are commented out,
so the returned dict is always empty. -/
def create_summary_statistics (_population_df _employment_df : Option Df) :
    List (String × ℚ) := []

/-! ## Rendering and writing (`save_processed_data`) -/

/-- Smallest `k < 40` with `q.den ∣ 10 ^ k`: the number of decimal fraction
digits needed to write `q` exactly (floats always admit one; the fuel bound
keeps the search computable). -/
def decExp (q : ℚ) : Option Nat :=
  (List.range 40).find? (fun k => decide (q.den ∣ 10 ^ k))

/-- Decimal rendering of a float value, as pandas `to_csv` writes it:
sign, integer digits, a decimal point, fraction digits (`".0"` when
integral). -/
def renderRat (q : ℚ) : String :=
  match decExp q with
  | none => "?"
  | some k =>
    let m := q.num.natAbs * (10 ^ k / q.den)
    let digs := padLeft (natToChars m) (k + 1)
    let ip := digs.take (digs.length - k)
    let fp := if k = 0 then ['0'] else digs.drop (digs.length - k)
    String.mk ((if q < 0 then ['-'] else []) ++ ip ++ '.' :: fp)

/-- The CSV field written for one cell: missing is empty, numbers render in
decimal, text is written as is (CSV quoting is bijective and abstracted). -/
def renderCell : Cell → String
  | Cell.null => ""
  | Cell.num q => renderRat q
  | Cell.str s => s

/-- `df.to_csv(..., index=False)` at the rows level: the header row of column
names followed by one field row per data row, no index column. -/
def toCsvRows (df : Df) : List (List String) :=
  (df.map Prod.fst) ::
    (List.range (nRows df)).map (fun r => df.map (fun p => renderCell (p.2.getD r Cell.null)))

/-- The fixed data directory `DATA_DIR = PROJECT_ROOT / "data"`. -/
def DATA_DIR : String := "data/"

/-- The observable effect of a successful `to_csv` call. -/
structure SaveResult where
  path : String
  encoding : String
  rows : List (List String)
deriving DecidableEq, Repr

/-- `save_processed_data`: `None` is a no-op, otherwise the frame is written
to `DATA_DIR/processed_<filename>` as UTF-8 with BOM and no index column. -/
def save_processed_data (df : Option Df) (filename : String) : Option SaveResult :=
  match df with
  | none => none
  | some d => some ⟨DATA_DIR ++ "processed_" ++ filename, "utf-8-sig", toCsvRows d⟩

/-! ## Loading (`load_kosis_csv`) -/

/-- The CSV field read for one cell under pandas type inference. An empty
field is missing; a numeric field has its `float` value. `none` marks a
field that blocks numeric inference for its column. -/
def parseField (s : String) : Option Cell :=
  if s = "" then some Cell.null else (parseFloat s).map Cell.num

/-- pandas `read_csv` column inference: a column whose every field is empty
or numeric becomes a numeric column; otherwise it stays text, empty fields
still reading as missing. -/
def inferCol (fields : List String) : List Cell :=
  match optMapAll parseField fields with
  | some cells => cells
  | none => fields.map (fun s => if s = "" then Cell.null else Cell.str s)

/-- pandas `read_csv` at the rows level: fails (raises) on an empty file, an
empty header or ragged rows; otherwise builds one inferred column per header
name. -/
def readCsv (rows : List (List String)) : Option Df :=
  match rows with
  | [] => none
  | header :: dataRows =>
    if header.isEmpty then none
    else if dataRows.all (fun r => decide (r.length = header.length)) then
      some ((List.range header.length).map (fun i =>
        (header.getD i "", inferCol (dataRows.map (fun r => r.getD i "")))))
    else none

/-- What the filesystem holds at a path: nothing, an unreadable file (any
decode error, with the exception message), or parsed comma-separated rows. -/
inductive FileResult where
  | missing : FileResult
  | corrupt : String → FileResult
  | content : List (List String) → FileResult

/-- `load_kosis_csv` over an explicit filesystem `fs` (file name and encoding
to file result). Returns the loaded frame (or `none`) together with the
printed log lines; no exception escapes. -/
def load_kosis_csv (fs : String → String → FileResult) (filename encoding : String) :
    Option Df × List String :=
  let filepath := DATA_DIR ++ filename
  match fs filename encoding with
  | FileResult.missing =>
    (none, ["✗ " ++ filename ++ " 파일을 찾을 수 없습니다.", "   경로: " ++ filepath])
  | FileResult.corrupt msg =>
    (none, ["✗ " ++ filename ++ " 로드 중 오류: " ++ msg])
  | FileResult.content rows =>
    match readCsv rows with
    | none => (none, ["✗ " ++ filename ++ " 로드 중 오류: ParserError"])
    | some df =>
      (some df, ["✓ " ++ filename ++ " 로드 완료 (" ++ toString (nRows df) ++ " rows)"])

/-! ## Utilities (`convert_age_group`) -/

/-- Maximal runs of decimal digits, as `re.findall` with a one-or-more digit
pattern returns them; `cur` is the current run, reversed. -/
def digitRunsAux : List Char → List Char → List (List Char)
  | [], cur => if cur.isEmpty then [] else [cur.reverse]
  | c :: rest, cur =>
    if isDigitChar c then digitRunsAux rest (c :: cur)
    else if cur.isEmpty then digitRunsAux rest []
    else cur.reverse :: digitRunsAux rest []

/-- All maximal digit runs of a character list, in order. -/
def digitRuns (l : List Char) : List (List Char) := digitRunsAux l []

/-- `convert_age_group`: missing input gives `None`; otherwise the first run
of digits in the string form, as an integer; `None` when there is none. -/
def convert_age_group (x : Option String) : Option Nat :=
  match x with
  | none => none
  | some s =>
    match digitRuns s.toList with
    | [] => none
    | r :: _ => some (digitsVal r)

/-! ## Digit lemmas -/

theorem charVal_digitChar (n : Nat) : charVal (digitChar n) = n % 10 := by
  have h : n % 10 < 10 := Nat.mod_lt n (by norm_num)
  simp only [digitChar]
  generalize n % 10 = r at h ⊢
  interval_cases r <;> decide

theorem isDigitChar_digitChar (n : Nat) : isDigitChar (digitChar n) = true := by
  have h : n % 10 < 10 := Nat.mod_lt n (by norm_num)
  simp only [digitChar]
  generalize n % 10 = r at h ⊢
  interval_cases r <;> decide

theorem charVal_lt_of_isDigit (c : Char) (h : isDigitChar c = true) : charVal c < 10 := by
  simp only [isDigitChar, Bool.and_eq_true, decide_eq_true_eq] at h
  simp only [charVal]
  omega

theorem digitsVal_foldl (l : List Char) (a : Nat) :
    l.foldl (fun x c => x * 10 + charVal c) a = a * 10 ^ l.length + digitsVal l := by
  induction l generalizing a with
  | nil => simp [digitsVal]
  | cons c t ih =>
    simp only [List.foldl_cons, List.length_cons, digitsVal]
    rw [ih, ih (0 * 10 + charVal c)]
    ring

theorem digitsVal_append (A B : List Char) :
    digitsVal (A ++ B) = digitsVal A * 10 ^ B.length + digitsVal B := by
  simp only [digitsVal, List.foldl_append]
  rw [digitsVal_foldl]
  rfl

theorem digitsVal_singleton (c : Char) : digitsVal [c] = charVal c := by
  simp [digitsVal]

theorem digitsVal_lt (l : List Char) (h : ∀ c ∈ l, isDigitChar c = true) :
    digitsVal l < 10 ^ l.length := by
  induction l with
  | nil => simp [digitsVal]
  | cons c t ih =>
    have hc : charVal c < 10 := charVal_lt_of_isDigit _ (h c (by simp))
    have ht := ih (fun x hx => h x (by simp [hx]))
    have hd : digitsVal (c :: t) = charVal c * 10 ^ t.length + digitsVal t := by
      have := digitsVal_append [c] t
      simpa [digitsVal_singleton] using this
    rw [hd, List.length_cons]
    calc charVal c * 10 ^ t.length + digitsVal t
        < charVal c * 10 ^ t.length + 10 ^ t.length := by omega
      _ = (charVal c + 1) * 10 ^ t.length := by ring
      _ ≤ 10 * 10 ^ t.length := Nat.mul_le_mul_right _ (by omega)
      _ = 10 ^ (t.length + 1) := by ring

theorem natToCharsAux_val : ∀ fuel n, n ≤ fuel → digitsVal (natToCharsAux fuel n) = n := by
  intro fuel
  induction fuel with
  | zero =>
    intro n h
    interval_cases n
    simp [natToCharsAux, digitsVal]
  | succ f ih =>
    intro n h
    by_cases h0 : n = 0
    · simp [natToCharsAux, h0, digitsVal]
    · rw [natToCharsAux, if_neg h0, digitsVal_append]
      have hdiv : n / 10 ≤ f := by
        have := Nat.div_lt_self (Nat.pos_of_ne_zero h0) (by norm_num : 1 < 10)
        omega
      rw [ih _ hdiv, digitsVal_singleton, charVal_digitChar]
      simp only [List.length_singleton, pow_one]
      omega

theorem natToCharsAux_digits :
    ∀ fuel n, ∀ c ∈ natToCharsAux fuel n, isDigitChar c = true := by
  intro fuel
  induction fuel with
  | zero => intro n c hc; simp [natToCharsAux] at hc
  | succ f ih =>
    intro n c hc
    by_cases h0 : n = 0
    · simp [natToCharsAux, h0] at hc
    · rw [natToCharsAux, if_neg h0] at hc
      rcases List.mem_append.1 hc with h | h
      · exact ih _ _ h
      · simp at h
        subst h
        exact isDigitChar_digitChar _

theorem digitsVal_natToChars (n : Nat) : digitsVal (natToChars n) = n := by
  by_cases h0 : n = 0
  · subst h0; decide
  · rw [natToChars, if_neg h0]
    exact natToCharsAux_val n n le_rfl

theorem natToChars_digits (n : Nat) : ∀ c ∈ natToChars n, isDigitChar c = true := by
  intro c hc
  by_cases h0 : n = 0
  · subst h0
    simp [natToChars] at hc
    subst hc
    decide
  · rw [natToChars, if_neg h0] at hc
    exact natToCharsAux_digits n n c hc

theorem natToChars_ne_nil (n : Nat) : natToChars n ≠ [] := by
  by_cases h0 : n = 0
  · subst h0; decide
  · rw [natToChars, if_neg h0]
    obtain ⟨f, hf⟩ : ∃ f, n = f + 1 := ⟨n - 1, by omega⟩
    rw [hf, natToCharsAux, if_neg (by omega : ¬f + 1 = 0)]
    simp

theorem digitsVal_replicate_zero (j : Nat) : digitsVal (List.replicate j '0') = 0 := by
  induction j with
  | zero => simp [digitsVal]
  | succ k ih =>
    rw [List.replicate_succ]
    have := digitsVal_append ['0'] (List.replicate k '0')
    simpa [digitsVal_singleton, ih, charVal] using this

theorem digitsVal_padLeft (l : List Char) (k : Nat) : digitsVal (padLeft l k) = digitsVal l := by
  rw [padLeft, digitsVal_append, digitsVal_replicate_zero]
  ring

theorem padLeft_length (l : List Char) (k : Nat) : (padLeft l k).length = max k l.length := by
  simp [padLeft]
  omega

theorem padLeft_digits (l : List Char) (k : Nat) (h : ∀ c ∈ l, isDigitChar c = true) :
    ∀ c ∈ padLeft l k, isDigitChar c = true := by
  intro c hc
  rcases List.mem_append.1 hc with h1 | h1
  · have := List.eq_of_mem_replicate h1
    subst this
    decide
  · exact h c h1

/-! ## Scanning lemmas -/

theorem takeWhile_of_all (p : α → Bool) (l : List α) (h : ∀ c ∈ l, p c = true) :
    l.takeWhile p = l := by
  induction l with
  | nil => rfl
  | cons a t ih =>
    rw [List.takeWhile_cons, h a (by simp)]
    simp [ih (fun c hc => h c (by simp [hc]))]

theorem dropWhile_all_nil (p : α → Bool) (l : List α) (h : ∀ c ∈ l, p c = true) :
    l.dropWhile p = [] := by
  induction l with
  | nil => rfl
  | cons a t ih =>
    rw [List.dropWhile_cons, h a (by simp)]
    simp [ih (fun c hc => h c (by simp [hc]))]

theorem dropWhile_of_all_neg (p : α → Bool) (l : List α) (h : ∀ c ∈ l, p c = false) :
    l.dropWhile p = l := by
  cases l with
  | nil => rfl
  | cons a t =>
    rw [List.dropWhile_cons, h a (by simp)]
    simp

theorem takeWhile_append_of (p : α → Bool) (A : List α) (x : α) (B : List α)
    (hA : ∀ c ∈ A, p c = true) (hx : p x = false) :
    (A ++ x :: B).takeWhile p = A := by
  induction A with
  | nil => simp [List.takeWhile_cons, hx]
  | cons a t ih =>
    rw [List.cons_append, List.takeWhile_cons, hA a (by simp)]
    simp [ih (fun c hc => hA c (by simp [hc]))]

theorem dropWhile_append_of (p : α → Bool) (A : List α) (x : α) (B : List α)
    (hA : ∀ c ∈ A, p c = true) (hx : p x = false) :
    (A ++ x :: B).dropWhile p = x :: B := by
  induction A with
  | nil => simp [List.dropWhile_cons, hx]
  | cons a t ih =>
    rw [List.cons_append, List.dropWhile_cons, hA a (by simp)]
    simp [ih (fun c hc => hA c (by simp [hc]))]

theorem stripWs_of_all (l : List Char) (h : ∀ c ∈ l, isWsChar c = false) : stripWs l = l := by
  rw [stripWs, dropWhile_of_all_neg _ _ h]
  rw [dropWhile_of_all_neg _ _ (fun c hc => h c (List.mem_reverse.1 hc))]
  exact List.reverse_reverse l

theorem isWsChar_of_isDigit (c : Char) (h : isDigitChar c = true) : isWsChar c = false := by
  simp only [isDigitChar, Bool.and_eq_true, decide_eq_true_eq] at h
  simp only [isWsChar, Bool.or_eq_false_iff, decide_eq_false_iff_not]
  omega

/-! ## Lemmas on `optMapAll` -/

theorem optMapAll_length (f : α → Option β) :
    ∀ l l', optMapAll f l = some l' → l'.length = l.length := by
  intro l
  induction l with
  | nil => intro l' h; simp [optMapAll] at h; simp [← h]
  | cons a t ih =>
    intro l' h
    rw [optMapAll] at h
    cases hfa : f a with
    | none => rw [hfa] at h; exact absurd h (by simp)
    | some b =>
      rw [hfa] at h
      cases hrest : optMapAll f t with
      | none => rw [hrest] at h; exact absurd h (by simp)
      | some bl =>
        rw [hrest] at h
        simp at h
        simp [← h, ih bl hrest]

theorem optMapAll_eq_none (f : α → Option β) (l : List α) (a : α)
    (ha : a ∈ l) (hfa : f a = none) : optMapAll f l = none := by
  induction l with
  | nil => simp at ha
  | cons x t ih =>
    rw [optMapAll]
    rcases List.mem_cons.1 ha with h | h
    · subst h; rw [hfa]
    · cases hfx : f x with
      | none => rfl
      | some b => rw [ih h]

theorem optMapAll_eq_map (f : α → Option β) (g : α → β) (l : List α)
    (h : ∀ a ∈ l, f a = some (g a)) : optMapAll f l = some (l.map g) := by
  induction l with
  | nil => rfl
  | cons a t ih =>
    rw [optMapAll, h a (by simp), ih (fun x hx => h x (by simp [hx]))]
    simp

/-! ## Parse–render round trip -/

theorem parseSign_cons_of_digit (c : Char) (rest : List Char) (hc : isDigitChar c = true) :
    parseSign (c :: rest) = (false, c :: rest) := by
  have h1 : ¬(c = '-') := by intro h; subst h; exact absurd hc (by decide)
  have h2 : ¬(c = '+') := by intro h; subst h; exact absurd hc (by decide)
  simp [parseSign, h1, h2]

theorem parseMantissa_decimal (ip fp : List Char)
    (hip : ∀ c ∈ ip, isDigitChar c = true) (hfp : ∀ c ∈ fp, isDigitChar c = true)
    (hipne : ip ≠ []) :
    parseMantissa (ip ++ '.' :: fp) =
      some ((digitsVal ip : ℚ) + (digitsVal fp : ℚ) / 10 ^ fp.length, []) := by
  have hdot : isDigitChar '.' = false := by decide
  have htw := takeWhile_append_of isDigitChar ip '.' fp hip hdot
  have hdw := dropWhile_append_of isDigitChar ip '.' fp hip hdot
  have hfptw := takeWhile_of_all isDigitChar fp hfp
  have hfpdw := dropWhile_all_nil isDigitChar fp hfp
  have hipemp : ip.isEmpty = false := by
    cases ip with
    | nil => exact absurd rfl hipne
    | cons a t => rfl
  simp only [parseMantissa, htw, hdw, List.headD_cons, List.tail_cons, hfptw, hfpdw, hipemp]
  simp

theorem stripWs_decimal_body (ip fp : List Char)
    (hip : ∀ c ∈ ip, isDigitChar c = true) (hfp : ∀ c ∈ fp, isDigitChar c = true) :
    ∀ c ∈ ip ++ '.' :: fp, isWsChar c = false := by
  intro c hc
  simp only [List.mem_append, List.mem_cons] at hc
  rcases hc with h | h | h
  · exact isWsChar_of_isDigit c (hip c h)
  · subst h; decide
  · exact isWsChar_of_isDigit c (hfp c h)

theorem parseFloatChars_decimal (P : Prop) [Decidable P] (ip fp : List Char)
    (hip : ∀ c ∈ ip, isDigitChar c = true) (hfp : ∀ c ∈ fp, isDigitChar c = true)
    (hipne : ip ≠ []) :
    parseFloatChars ((if P then ['-'] else []) ++ ip ++ '.' :: fp) =
      some (if P then -((digitsVal ip : ℚ) + (digitsVal fp : ℚ) / 10 ^ fp.length)
            else (digitsVal ip : ℚ) + (digitsVal fp : ℚ) / 10 ^ fp.length) := by
  have hmant := parseMantissa_decimal ip fp hip hfp hipne
  have hbody := stripWs_decimal_body ip fp hip hfp
  by_cases hP : P
  · have hR : (if P then ['-'] else []) ++ ip ++ '.' :: fp = '-' :: (ip ++ '.' :: fp) := by
      rw [if_pos hP]
      rfl
    rw [hR, if_pos hP]
    have hstrip : stripWs ('-' :: (ip ++ '.' :: fp)) = '-' :: (ip ++ '.' :: fp) := by
      apply stripWs_of_all
      intro c hc
      rcases List.mem_cons.1 hc with h | h
      · subst h; decide
      · exact hbody c h
    have hsign : parseSign ('-' :: (ip ++ '.' :: fp)) = (true, ip ++ '.' :: fp) := by
      simp [parseSign]
    simp only [parseFloatChars, hstrip, hsign, hmant, parseExpPart, List.isEmpty_nil,
      applyExp, Int.toNat_zero, pow_zero, mul_one]
    simp
  · have hR : (if P then ['-'] else []) ++ ip ++ '.' :: fp = ip ++ '.' :: fp := by
      rw [if_neg hP]
      rfl
    rw [hR, if_neg hP]
    have hstrip : stripWs (ip ++ '.' :: fp) = ip ++ '.' :: fp := stripWs_of_all _ hbody
    obtain ⟨d, ipt, hipd⟩ : ∃ d t, ip = d :: t := by
      cases ip with
      | nil => exact absurd rfl hipne
      | cons a t => exact ⟨a, t, rfl⟩
    have hsign : parseSign (ip ++ '.' :: fp) = (false, ip ++ '.' :: fp) := by
      rw [hipd, List.cons_append]
      rw [parseSign_cons_of_digit d _ (hip d (by rw [hipd]; simp))]
    simp only [parseFloatChars, hstrip, hsign, hmant, parseExpPart, List.isEmpty_nil,
      applyExp, Int.toNat_zero, pow_zero, mul_one]
    simp

theorem digitsVal_take_drop (l : List Char) (j : Nat)
    (hd : ∀ c ∈ l, isDigitChar c = true) (_hj : j ≤ l.length) :
    digitsVal (l.take j) = digitsVal l / 10 ^ (l.length - j) ∧
    digitsVal (l.drop j) = digitsVal l % 10 ^ (l.length - j) := by
  have hsplit := digitsVal_append (l.take j) (l.drop j)
  rw [List.take_append_drop] at hsplit
  have hlen : (l.drop j).length = l.length - j := by simp
  have hlt : digitsVal (l.drop j) < 10 ^ (l.length - j) := by
    rw [← hlen]
    exact digitsVal_lt _ (fun c hc => hd c (List.mem_of_mem_drop hc))
  rw [hlen] at hsplit
  have hpos : 0 < 10 ^ (l.length - j) := Nat.pos_pow_of_pos _ (by norm_num)
  constructor
  · rw [hsplit, mul_comm, Nat.mul_add_div hpos, Nat.div_eq_of_lt hlt, Nat.add_zero]
  · rw [hsplit, mul_comm, Nat.mul_add_mod, Nat.mod_eq_of_lt hlt]

theorem decExp_dvd (q : ℚ) (k : Nat) (hk : decExp q = some k) : q.den ∣ 10 ^ k := by
  unfold decExp at hk
  have h := List.find?_some hk
  simp only [decide_eq_true_eq] at h
  exact h

theorem natAbs_mul_quot_div_pow (q : ℚ) (k : Nat) (hdvd : q.den ∣ 10 ^ k) :
    ((q.num.natAbs * (10 ^ k / q.den) : ℕ) : ℚ) / (10 : ℚ) ^ k = |q| := by
  obtain ⟨c, hc⟩ := hdvd
  have hden : 0 < q.den := q.pos
  have hpow : 0 < (10 : ℕ) ^ k := Nat.pos_pow_of_pos _ (by norm_num)
  have hcpos : 0 < c := by
    rcases Nat.eq_zero_or_pos c with h | h
    · subst h; omega
    · exact h
  have hquot : 10 ^ k / q.den = c := by
    rw [hc]
    exact Nat.mul_div_cancel_left c hden
  have hdenq : ((q.den : ℚ)) ≠ 0 := by
    exact_mod_cast hden.ne'
  have hcq : ((c : ℚ)) ≠ 0 := by
    exact_mod_cast hcpos.ne'
  have hpowq : (10 : ℚ) ^ k = (q.den : ℚ) * (c : ℚ) := by exact_mod_cast hc
  have hnum : (q.num : ℚ) = q * (q.den : ℚ) := (div_eq_iff hdenq).mp (Rat.num_div_den q)
  rw [hquot, hpowq, div_eq_iff (mul_ne_zero hdenq hcq)]
  push_cast [Int.cast_natAbs]
  rw [hnum, abs_mul, abs_of_pos (by exact_mod_cast hden : (0 : ℚ) < (q.den : ℚ))]
  ring

theorem abs_sign_eq (q : ℚ) : (if q < 0 then -|q| else |q|) = q := by
  by_cases h : q < 0
  · rw [if_pos h, abs_of_neg h, neg_neg]
  · rw [if_neg h, abs_of_nonneg (le_of_not_lt h)]

set_option maxHeartbeats 1000000 in
theorem parseFloat_renderRat (q : ℚ) (k : Nat) (hk : decExp q = some k) :
    parseFloat (renderRat q) = some q := by
  have hdvd : q.den ∣ 10 ^ k := decExp_dvd q k hk
  have hmq := natAbs_mul_quot_div_pow q k hdvd
  rw [renderRat, hk]
  set m : Nat := q.num.natAbs * (10 ^ k / q.den) with hm
  set digs : List Char := padLeft (natToChars m) (k + 1) with hdigsdef
  have hdigsDig : ∀ c ∈ digs, isDigitChar c = true :=
    padLeft_digits _ _ (natToChars_digits m)
  have hdigsVal : digitsVal digs = m := by
    rw [hdigsdef, digitsVal_padLeft, digitsVal_natToChars]
  have hL : k + 1 ≤ digs.length := by
    rw [hdigsdef, padLeft_length]
    omega
  set ip : List Char := digs.take (digs.length - k) with hipdef
  have hipDig : ∀ c ∈ ip, isDigitChar c = true :=
    fun c hc => hdigsDig c (List.mem_of_mem_take hc)
  have hiplen : ip.length = digs.length - k := by
    rw [hipdef, List.length_take]
    omega
  have hipne : ip ≠ [] := by
    intro h
    rw [h] at hiplen
    simp at hiplen
    omega
  set fp : List Char := if k = 0 then ['0'] else digs.drop (digs.length - k) with hfpdef
  have hfpDig : ∀ c ∈ fp, isDigitChar c = true := by
    rw [hfpdef]
    by_cases h0 : k = 0
    · rw [if_pos h0]
      intro c hc
      simp at hc
      subst hc
      decide
    · rw [if_neg h0]
      exact fun c hc => hdigsDig c (List.mem_of_mem_drop hc)
  have hparse : parseFloat (String.mk ((if q < 0 then ['-'] else []) ++ ip ++ '.' :: fp)) =
      parseFloatChars ((if q < 0 then ['-'] else []) ++ ip ++ '.' :: fp) := rfl
  rw [hparse, parseFloatChars_decimal (q < 0) ip fp hipDig hfpDig hipne]
  have hval : (digitsVal ip : ℚ) + (digitsVal fp : ℚ) / 10 ^ fp.length = |q| := by
    by_cases h0 : k = 0
    · subst h0
      have hip_eq : ip = digs := by
        rw [hipdef, Nat.sub_zero, List.take_length]
      have hfp_eq : fp = ['0'] := by rw [hfpdef]; rfl
      rw [hip_eq, hfp_eq, hdigsVal]
      have : digitsVal ['0'] = 0 := by decide
      rw [this]
      rw [← hmq]
      norm_num
    · have hfp_eq : fp = digs.drop (digs.length - k) := by
        rw [hfpdef, if_neg h0]
      have hsub : digs.length - (digs.length - k) = k := by omega
      obtain ⟨htake, hdrop⟩ :=
        digitsVal_take_drop digs (digs.length - k) hdigsDig (by omega)
      rw [hsub] at htake hdrop
      rw [hdigsVal] at htake hdrop
      have hfplen : fp.length = k := by
        rw [hfp_eq, List.length_drop]
        omega
      rw [← hfp_eq] at hdrop
      rw [← hipdef] at htake
      rw [htake, hdrop, hfplen]
      rw [← hmq]
      have hpow : ((10 : ℚ) ^ k) ≠ 0 := by positivity
      have hmod := Nat.div_add_mod m (10 ^ k)
      have hmodq : (10 : ℚ) ^ k * ((m / 10 ^ k : ℕ) : ℚ) + ((m % 10 ^ k : ℕ) : ℚ) = (m : ℚ) := by
        exact_mod_cast hmod
      field_simp
      linarith [hmodq]
  rw [hval]
  by_cases hneg : q < 0
  · rw [if_pos hneg]
    congr 1
    have := abs_sign_eq q
    rw [if_pos hneg] at this
    exact this
  · rw [if_neg hneg]
    congr 1
    have := abs_sign_eq q
    rw [if_neg hneg] at this
    exact this

/-! ## Column inference undoes rendering -/

theorem renderRat_ne_empty (q : ℚ) (k : Nat) (hk : decExp q = some k) : renderRat q ≠ "" := by
  rw [renderRat, hk]
  intro h
  have h2 := congrArg String.data h
  simp at h2

theorem optMapAll_map (f : β → Option γ) (r : α → β) (l : List α) :
    optMapAll f (l.map r) = optMapAll (fun a => f (r a)) l := by
  induction l with
  | nil => rfl
  | cons a t ih =>
    simp only [List.map_cons, optMapAll]
    rw [ih]

theorem parseField_renderCell_of_num (c : Cell)
    (h : c = Cell.null ∨ ∃ q, c = Cell.num q ∧ (decExp q).isSome = true) :
    parseField (renderCell c) = some c := by
  rcases h with rfl | ⟨q, rfl, hq⟩
  · simp [renderCell, parseField]
  · obtain ⟨k, hk⟩ := Option.isSome_iff_exists.1 hq
    have hne : renderRat q ≠ "" := renderRat_ne_empty q k hk
    simp [renderCell, parseField, hne, parseFloat_renderRat q k hk]

theorem inferCol_render_num (cs : List Cell)
    (h : ∀ c ∈ cs, c = Cell.null ∨ ∃ q, c = Cell.num q ∧ (decExp q).isSome = true) :
    inferCol (cs.map renderCell) = cs := by
  have hsome : optMapAll parseField (cs.map renderCell) = some cs := by
    rw [optMapAll_map]
    have h2 := optMapAll_eq_map (fun c => parseField (renderCell c)) id cs
      (fun c hc => by
        show parseField (renderCell c) = some (id c)
        rw [parseField_renderCell_of_num c (h c hc)]
        rfl)
    simpa using h2
  unfold inferCol
  rw [hsome]

theorem inferCol_render_text (cs : List Cell)
    (hall : ∀ c ∈ cs, c = Cell.null ∨ ∃ s, c = Cell.str s ∧ s ≠ "")
    (hfail : ∃ s, Cell.str s ∈ cs ∧ parseFloat s = none) :
    inferCol (cs.map renderCell) = cs := by
  obtain ⟨s0, hs0mem, hs0⟩ := hfail
  have hs0ne : s0 ≠ "" := by
    rcases hall _ hs0mem with h | ⟨s, hs, hne⟩
    · exact absurd h (by simp)
    · have : s0 = s := by injection hs
      rw [this]
      exact hne
  have hnone : optMapAll parseField (cs.map renderCell) = none := by
    apply optMapAll_eq_none _ _ (renderCell (Cell.str s0)) (List.mem_map_of_mem _ hs0mem)
    simp [renderCell, parseField, hs0ne, hs0]
  unfold inferCol
  rw [hnone, List.map_map]
  have hcells : ∀ c ∈ cs,
      ((fun s => if s = "" then Cell.null else Cell.str s) ∘ renderCell) c = id c := by
    intro c hc
    rcases hall c hc with rfl | ⟨s, rfl, hne⟩
    · simp [renderCell]
    · simp [renderCell, hne]
  rw [List.map_congr_left hcells, List.map_id]

/-! ## Loader facts -/

theorem inferCol_length (fields : List String) : (inferCol fields).length = fields.length := by
  unfold inferCol
  cases h : optMapAll parseField fields with
  | none => simp
  | some cells => simpa using optMapAll_length _ _ _ h

theorem range_map_getD (l : List α) (d : α) (f : α → β) :
    (List.range l.length).map (fun r => f (l.getD r d)) = l.map f := by
  apply List.ext_getElem
  · simp
  · intro i h1 h2
    simp only [List.getElem_map, List.getElem_range]
    rw [List.getD_eq_getElem l d (by simpa using h2)]

/-! ## Round-trip side conditions -/

/-- A numeric-column cell: missing, or a value with a finite decimal form. -/
def cellNumOk : Cell → Bool
  | Cell.null => true
  | Cell.num q => (decExp q).isSome
  | Cell.str _ => false

/-- A text-column cell: missing, or a non-empty text value. -/
def cellTextOk : Cell → Bool
  | Cell.null => true
  | Cell.num _ => false
  | Cell.str s => !(s = "")

/-- A text cell that blocks numeric inference for its column. -/
def cellFails : Cell → Bool
  | Cell.str s => (parseFloat s).isNone
  | _ => false

/-- A column that survives the write–read round trip: a homogeneous numeric
column of finitely-representable values, or a homogeneous text column with at
least one non-numeric cell (as cleaning leaves them). -/
def colOk (cs : List Cell) : Bool :=
  cs.all cellNumOk || (cs.all cellTextOk && cs.any cellFails)

theorem inferCol_render_of_colOk (cs : List Cell) (h : colOk cs = true) :
    inferCol (cs.map renderCell) = cs := by
  rw [colOk, Bool.or_eq_true, Bool.and_eq_true] at h
  rcases h with h | ⟨htext, hfail⟩
  · apply inferCol_render_num
    intro c hc
    have hcok := List.all_eq_true.1 h c hc
    cases c with
    | null => exact Or.inl rfl
    | num q => exact Or.inr ⟨q, rfl, by simpa [cellNumOk] using hcok⟩
    | str s => exact absurd hcok (by simp [cellNumOk])
  · apply inferCol_render_text
    · intro c hc
      have hcok := List.all_eq_true.1 htext c hc
      cases c with
      | null => exact Or.inl rfl
      | num q => exact absurd hcok (by simp [cellTextOk])
      | str s =>
        refine Or.inr ⟨s, rfl, ?_⟩
        simpa [cellTextOk] using hcok
    · obtain ⟨c, hcmem, hcf⟩ := List.any_eq_true.1 hfail
      cases c with
      | null => exact absurd hcf (by simp [cellFails])
      | num q => exact absurd hcf (by simp [cellFails])
      | str s =>
        exact ⟨s, hcmem, by simpa [cellFails, Option.isNone_iff_eq_none] using hcf⟩

set_option maxHeartbeats 1000000 in
theorem readCsv_toCsvRows (df : Df)
    (hne : df ≠ [])
    (hrect : ∀ p ∈ df, p.2.length = nRows df)
    (hok : ∀ p ∈ df, colOk p.2 = true) :
    readCsv (toCsvRows df) = some df := by
  rw [toCsvRows, readCsv]
  have hnamesne : (df.map Prod.fst).isEmpty = false := by
    cases df with
    | nil => exact absurd rfl hne
    | cons p t => rfl
  rw [if_neg (by simp [hnamesne])]
  have hlens : (((List.range (nRows df)).map
      (fun r => df.map (fun p => renderCell (p.2.getD r Cell.null)))).all
        (fun r => decide (r.length = (df.map Prod.fst).length))) = true := by
    rw [List.all_eq_true]
    intro r hr
    obtain ⟨i, _, rfl⟩ := List.mem_map.1 hr
    simp
  rw [if_pos hlens]
  congr 1
  apply List.ext_getElem
  · simp
  · intro i h1 h2
    have hi : i < df.length := by simpa using h2
    rw [List.getElem_map, List.getElem_range]
    have hname : (df.map Prod.fst).getD i "" = df[i].1 := by
      rw [List.getD_eq_getElem (df.map Prod.fst) "" (by simpa using hi), List.getElem_map]
    have hfields : ((List.range (nRows df)).map
        (fun r => df.map (fun p => renderCell (p.2.getD r Cell.null)))).map
          (fun r => r.getD i "") = df[i].2.map renderCell := by
      rw [List.map_map]
      have hstep : ∀ r ∈ List.range (nRows df),
          ((fun r => r.getD i "") ∘
            (fun r => df.map (fun p => renderCell (p.2.getD r Cell.null)))) r =
          (fun r => renderCell (df[i].2.getD r Cell.null)) r := by
        intro r _
        show (df.map (fun p => renderCell (p.2.getD r Cell.null))).getD i "" = _
        rw [List.getD_eq_getElem (df.map (fun p => renderCell (p.2.getD r Cell.null))) ""
          (by simpa using hi), List.getElem_map]
      rw [List.map_congr_left hstep]
      have hlen : df[i].2.length = nRows df := hrect df[i] (List.getElem_mem hi)
      rw [← hlen]
      exact range_map_getD df[i].2 Cell.null renderCell
    rw [hfields, hname, inferCol_render_of_colOk df[i].2 (hok df[i] (List.getElem_mem hi))]

/-- A successful `read_csv` returns exactly the file's data-row count. -/
theorem readCsv_nRows (rows : List (List String)) (df : Df) (h : readCsv rows = some df) :
    nRows df = rows.length - 1 := by
  match rows with
  | [] => simp [readCsv] at h
  | header :: dataRows =>
    rw [readCsv] at h
    by_cases he : header.isEmpty = true
    · rw [if_pos he] at h
      exact absurd h (by simp)
    · rw [if_neg he] at h
      by_cases hall : (dataRows.all (fun r => decide (r.length = header.length))) = true
      · rw [if_pos hall] at h
        have hdf := Option.some.inj h
        match header, he with
        | c :: t, _ =>
          rw [← hdf]
          rw [show (c :: t).length = t.length + 1 from rfl, List.range_succ_eq_map,
            List.map_cons]
          show (inferCol (dataRows.map (fun r => r.getD 0 ""))).length = _
          rw [inferCol_length]
          simp
      · rw [if_neg hall] at h
        exact absurd h (by simp)

/-! ## Claims -/

/-- Claim C3: `create_summary_statistics` returns an empty mapping for every
pair of inputs, whether each input dataset is present or absent. -/
theorem claim_c3_summary_always_empty (p e : Option Df) :
    create_summary_statistics p e = [] := rfl

/-- Claim C5: writing an absent dataset is a no-op — `save_processed_data`
performs no write and raises no error when its dataset argument is absent. -/
theorem claim_c5_save_absent_noop (filename : String) :
    save_processed_data none filename = none := rfl

/-- Claim C7: the keyword filter is a no-op — for every non-absent dataset,
`clean_employment_data` returns the dataset with all rows and all cell
values unchanged. -/
theorem claim_c7_employment_noop (df : Df) :
    clean_employment_data (some df) = some df := rfl

/-- Claim C9: for every non-absent dataset and output file stem,
`save_processed_data` writes to the fixed data directory under a
`processed_` prefix, as UTF-8 with a byte-order mark, and without a
row-index column: the header row is exactly the column names and every data
row has exactly one field per column. -/
theorem claim_c9_save_spec (d : Df) (filename : String) :
    save_processed_data (some d) filename =
      some ⟨DATA_DIR ++ "processed_" ++ filename, "utf-8-sig", toCsvRows d⟩ ∧
    (toCsvRows d).getD 0 [] = d.map Prod.fst ∧
    ∀ row ∈ (toCsvRows d).tail, row.length = d.length := by
  refine ⟨rfl, rfl, ?_⟩
  intro row hrow
  rw [toCsvRows, List.tail_cons] at hrow
  obtain ⟨r, _, rfl⟩ := List.mem_map.1 hrow
  simp

/-- Claim C1: column normalization is all-or-nothing per column — if any
text cell of a column fails to parse as a number after comma stripping, the
entire column is left unmodified, silently, even if other cells look
numeric. -/
theorem claim_c1_all_or_nothing (df : Df) (i : Nat) (h : i < df.length)
    (hfail : ∃ s, Cell.str s ∈ df[i].2 ∧ parseFloat (stripCommas s) = none) :
    clean_population_data (some df) = some (cleanCols df) ∧
    (cleanCols df).getD i ("", []) = df[i] := by
  obtain ⟨s, hmem, hparse⟩ := hfail
  refine ⟨rfl, ?_⟩
  have hobj : isObjectCol df[i].2 = true := by
    rw [isObjectCol, List.any_eq_true]
    exact ⟨Cell.str s, hmem, rfl⟩
  have htry : tryConvertCol df[i].2 = df[i].2 := by
    unfold tryConvertCol
    rw [optMapAll_eq_none _ _ (Cell.str s) hmem (by simp [convertCell, hparse])]
  have hcol : colStep df[i] = df[i] := by
    simp only [colStep, hobj, if_pos, htry]
  rw [cleanCols, List.getD_eq_getElem _ _ (by simpa using h), List.getElem_map, hcol]

unseal Rat.mul Rat.add Rat.inv in
/-- Witness for C1: a column holding `"1,234"` and `"abc"` is returned with
both cells untouched. -/
theorem claim_c1_witness :
    (∃ s, Cell.str s ∈ ([("c", [Cell.str "1,234", Cell.str "abc"])] : Df)[0].2 ∧
        parseFloat (stripCommas s) = none) ∧
    (cleanCols [("c", [Cell.str "1,234", Cell.str "abc"])]).getD 0 ("", []) =
      ([("c", [Cell.str "1,234", Cell.str "abc"])] : Df)[0] := by
  have hyp : ∃ s, Cell.str s ∈ ([("c", [Cell.str "1,234", Cell.str "abc"])] : Df)[0].2 ∧
      parseFloat (stripCommas s) = none := ⟨"abc", by decide, by decide⟩
  exact ⟨hyp, (claim_c1_all_or_nothing [("c", [Cell.str "1,234", Cell.str "abc"])] 0
    (by decide) hyp).2⟩

/-- Claim C2: a text column consisting entirely of numeric strings, possibly
with comma thousands separators, is converted cell by cell to the
corresponding numeric value. -/
theorem claim_c2_numeric_conversion (df : Df) (i : Nat) (h : i < df.length)
    (hall : ∀ c ∈ df[i].2, ∃ s q, c = Cell.str s ∧ parseFloat (stripCommas s) = some q) :
    clean_population_data (some df) = some (cleanCols df) ∧
    (cleanCols df).getD i ("", []) =
      (df[i].1, df[i].2.map (fun c => (convertCell c).getD c)) := by
  refine ⟨rfl, ?_⟩
  have hcolgen : ∀ (p : String × List Cell),
      (∀ c ∈ p.2, ∃ s q, c = Cell.str s ∧ parseFloat (stripCommas s) = some q) →
      colStep p = (p.1, p.2.map (fun c => (convertCell c).getD c)) := by
    rintro ⟨nm, cs⟩ hall2
    cases cs with
    | nil => simp [colStep, isObjectCol]
    | cons c0 t =>
      obtain ⟨s0, q0, hc0eq, _⟩ := hall2 c0 (by simp)
      have hobj : isObjectCol (c0 :: t) = true := by
        rw [isObjectCol, List.any_eq_true]
        exact ⟨c0, by simp, by rw [hc0eq]; rfl⟩
      have hsome : ∀ c ∈ c0 :: t, convertCell c = some ((convertCell c).getD c) := by
        intro c hc
        obtain ⟨s, q, rfl, hq⟩ := hall2 c hc
        simp [convertCell, hq]
      have htry : tryConvertCol (c0 :: t) = (c0 :: t).map (fun c => (convertCell c).getD c) := by
        unfold tryConvertCol
        rw [optMapAll_eq_map _ _ _ hsome]
      simp only [colStep, hobj, if_pos, htry]
  rw [cleanCols, List.getD_eq_getElem _ _ (by simpa using h), List.getElem_map,
    hcolgen df[i] hall]

unseal Rat.mul Rat.add Rat.inv in
/-- Witness for C2: the column `인구 (명)` with values `"2,500,000"` and
`"2,600,000"` becomes the numeric column `2500000.0`, `2600000.0`. -/
theorem claim_c2_witness :
    (∀ c ∈ ([("인구 (명)", [Cell.str "2,500,000", Cell.str "2,600,000"])] : Df)[0].2,
      ∃ s q, c = Cell.str s ∧ parseFloat (stripCommas s) = some q) ∧
    (cleanCols [("인구 (명)", [Cell.str "2,500,000", Cell.str "2,600,000"])]).getD 0 ("", []) =
      (([("인구 (명)", [Cell.str "2,500,000", Cell.str "2,600,000"])] : Df)[0].1,
        ([("인구 (명)", [Cell.str "2,500,000", Cell.str "2,600,000"])] : Df)[0].2.map
          (fun c => (convertCell c).getD c)) ∧
    cleanCols [("인구 (명)", [Cell.str "2,500,000", Cell.str "2,600,000"])] =
      [("인구 (명)", [Cell.num 2500000, Cell.num 2600000])] := by
  have hyp : ∀ c ∈ ([("인구 (명)", [Cell.str "2,500,000", Cell.str "2,600,000"])] : Df)[0].2,
      ∃ s q, c = Cell.str s ∧ parseFloat (stripCommas s) = some q := by
    intro c hc
    simp at hc
    rcases hc with rfl | rfl
    · exact ⟨"2,500,000", 2500000, rfl, by decide⟩
    · exact ⟨"2,600,000", 2600000, rfl, by decide⟩
  exact ⟨hyp, (claim_c2_numeric_conversion
    [("인구 (명)", [Cell.str "2,500,000", Cell.str "2,600,000"])] 0 (by decide) hyp).2,
    by decide⟩

/-- Claim C8: after the conversion pass, the per-column null counts are the
exact number of missing entries of each column (zero iff none), reporting is
membership in `missing[missing > 0]` when some column has missing entries,
and the reporting step changes no cell: the cleaned frame is `cleanCols df`
regardless of the report. -/
theorem claim_c8_missing_report (df : Df) (nm : String) (cs : List Cell)
    (hmem : (nm, cs) ∈ cleanCols df) :
    clean_population_data (some df) = some (cleanCols df) ∧
    (nm, cs.countP isNull) ∈ missingCounts (cleanCols df) ∧
    cs.countP isNull = (cs.filter isNull).length ∧
    (cs.countP isNull = 0 ↔ ∀ c ∈ cs, isNull c = false) ∧
    (0 < cs.countP isNull → (nm, cs.countP isNull) ∈ missingReport (cleanCols df)) := by
  refine ⟨rfl, List.mem_map_of_mem _ hmem, List.countP_eq_length_filter _ _, ?_, ?_⟩
  · rw [List.countP_eq_zero]
    constructor
    · intro h c hc
      simpa using h c hc
    · intro h c hc
      simp [h c hc]
  · intro hpos
    have hmemc : (nm, cs.countP isNull) ∈ missingCounts (cleanCols df) :=
      List.mem_map_of_mem _ hmem
    have hany : (missingCounts (cleanCols df)).any (fun p => decide (0 < p.2)) = true := by
      rw [List.any_eq_true]
      exact ⟨(nm, cs.countP isNull), hmemc, by simpa using hpos⟩
    rw [missingReport, if_pos hany]
    exact List.mem_filter.2 ⟨hmemc, by simpa using hpos⟩

/-- Witness for C8: in a cleaned frame whose column holds one missing and one
text cell, the reported count is exactly `1` and the report lists it. -/
theorem claim_c8_witness :
    (("a", [Cell.null, Cell.str "x"]) ∈ cleanCols [("a", [Cell.null, Cell.str "x"])]) ∧
    ([Cell.null, Cell.str "x"].countP isNull = 1) ∧
    (clean_population_data (some [("a", [Cell.null, Cell.str "x"])]) =
      some (cleanCols [("a", [Cell.null, Cell.str "x"])]) ∧
    ("a", [Cell.null, Cell.str "x"].countP isNull) ∈
      missingCounts (cleanCols [("a", [Cell.null, Cell.str "x"])]) ∧
    [Cell.null, Cell.str "x"].countP isNull =
      ([Cell.null, Cell.str "x"].filter isNull).length ∧
    ([Cell.null, Cell.str "x"].countP isNull = 0 ↔
      ∀ c ∈ [Cell.null, Cell.str "x"], isNull c = false) ∧
    (0 < [Cell.null, Cell.str "x"].countP isNull →
      ("a", [Cell.null, Cell.str "x"].countP isNull) ∈
        missingReport (cleanCols [("a", [Cell.null, Cell.str "x"])]))) := by
  have hmem : ("a", [Cell.null, Cell.str "x"]) ∈ cleanCols [("a", [Cell.null, Cell.str "x"])] := by
    decide
  exact ⟨hmem, by decide, claim_c8_missing_report [("a", [Cell.null, Cell.str "x"])] "a"
    [Cell.null, Cell.str "x"] hmem⟩

/-- Claim C10: `convert_age_group` maps a missing input to `None`; an input
whose string form contains a run of decimal digits yields the first run as an
integer; an input with no digits yields `None`. -/
theorem claim_c10_convert_age_group :
    convert_age_group none = none ∧
    (∀ s r rest, digitRuns s.toList = r :: rest →
      convert_age_group (some s) = some (digitsVal r)) ∧
    (∀ s, digitRuns s.toList = [] → convert_age_group (some s) = none) := by
  refine ⟨rfl, ?_, ?_⟩
  · intro s r rest h
    simp only [convert_age_group, h]
  · intro s h
    simp only [convert_age_group, h]

/-- Witness for C10: `"15-19세"` yields `15` (its first digit run), a
digit-free string yields `None`, and a missing input yields `None`. -/
theorem claim_c10_witness :
    digitRuns (String.toList "15-19세") = [['1', '5'], ['1', '9']] ∧
    convert_age_group (some "15-19세") = some 15 ∧
    digitRuns (String.toList "세") = [] ∧
    convert_age_group (some "세") = none ∧
    convert_age_group none = none := by
  refine ⟨by decide, ?_, by decide, claim_c10_convert_age_group.2.2 "세" (by decide),
    claim_c10_convert_age_group.1⟩
  have h := claim_c10_convert_age_group.2.1 "15-19세" ['1', '5'] [['1', '9']] (by decide)
  rw [h]
  decide

/-- Claim C4: the CSV loader never raises — every branch returns a value: a
missing file gives an absent frame and logs the expected path, any other
read failure gives an absent frame and logs the message, and a successful
read returns exactly the file's data-row count. -/
theorem claim_c4_loader (fs : String → String → FileResult) (filename encoding : String) :
    (fs filename encoding = FileResult.missing →
      (load_kosis_csv fs filename encoding).1 = none ∧
      ("   경로: " ++ (DATA_DIR ++ filename)) ∈ (load_kosis_csv fs filename encoding).2) ∧
    (∀ msg, fs filename encoding = FileResult.corrupt msg →
      (load_kosis_csv fs filename encoding).1 = none ∧
      ("✗ " ++ filename ++ " 로드 중 오류: " ++ msg) ∈
        (load_kosis_csv fs filename encoding).2) ∧
    (∀ rows, fs filename encoding = FileResult.content rows → readCsv rows = none →
      (load_kosis_csv fs filename encoding).1 = none) ∧
    (∀ rows df, fs filename encoding = FileResult.content rows → readCsv rows = some df →
      (load_kosis_csv fs filename encoding).1 = some df ∧ nRows df = rows.length - 1) := by
  refine ⟨?_, ?_, ?_, ?_⟩
  · intro h
    simp only [load_kosis_csv, h]
    simp
  · intro msg h
    simp only [load_kosis_csv, h]
    simp
  · intro rows h hr
    simp only [load_kosis_csv, h, hr]
  · intro rows df h hr
    simp only [load_kosis_csv, h, hr]
    exact ⟨trivial, readCsv_nRows rows df hr⟩

unseal Rat.mul Rat.add Rat.inv in
/-- Witness for C4: the three branches at concrete inputs — a missing file, a
corrupt file, an unreadable empty file, and a well-formed file with two data
rows loading as two rows. -/
theorem claim_c4_witness :
    ((load_kosis_csv (fun _ _ => FileResult.missing) "kosis_population.csv" "cp949").1 = none ∧
      ("   경로: " ++ (DATA_DIR ++ "kosis_population.csv")) ∈
        (load_kosis_csv (fun _ _ => FileResult.missing) "kosis_population.csv" "cp949").2) ∧
    ((load_kosis_csv (fun _ _ => FileResult.corrupt "decode error") "f.csv" "cp949").1 = none ∧
      ("✗ " ++ "f.csv" ++ " 로드 중 오류: " ++ "decode error") ∈
        (load_kosis_csv (fun _ _ => FileResult.corrupt "decode error") "f.csv" "cp949").2) ∧
    ((load_kosis_csv (fun _ _ => FileResult.content []) "f.csv" "cp949").1 = none) ∧
    ((load_kosis_csv (fun _ _ => FileResult.content [["a"], ["1"], ["2"]]) "f.csv" "cp949").1 =
        some [("a", [Cell.num 1, Cell.num 2])] ∧
      nRows [("a", [Cell.num 1, Cell.num 2])] = [["a"], ["1"], ["2"]].length - 1) := by
  refine ⟨(claim_c4_loader _ _ _).1 rfl, (claim_c4_loader _ _ _).2.1 "decode error" rfl,
    (claim_c4_loader _ _ _).2.2.1 [] rfl (by decide), ?_⟩
  exact (claim_c4_loader (fun _ _ => FileResult.content [["a"], ["1"], ["2"]]) "f.csv"
    "cp949").2.2.2 [["a"], ["1"], ["2"]] [("a", [Cell.num 1, Cell.num 2])] rfl (by decide)

/-- Counterexample to C6 as stated: the cleaned one-column dataset holding the
empty text value is written as an empty CSV field and reloads as a missing
value, so writing and reloading does not reproduce the column values of every
cleaned dataset. -/
theorem claim_c6_counterexample :
    clean_population_data (some [("c", [Cell.str ""])]) = some [("c", [Cell.str ""])] ∧
    save_processed_data (some [("c", [Cell.str ""])]) "population.csv" =
      some ⟨DATA_DIR ++ "processed_" ++ "population.csv", "utf-8-sig", [["c"], [""]]⟩ ∧
    (load_kosis_csv (fun _ _ => FileResult.content [["c"], [""]])
      "processed_population.csv" "utf-8-sig").1 = some [("c", [Cell.null])] ∧
    Cell.null ≠ Cell.str "" := by
  refine ⟨by decide, by decide, by decide, by decide⟩

set_option maxHeartbeats 1000000 in
/-- Claim C6 (amended): writing a cleaned dataset and reloading the written
rows with UTF-8-BOM encoding reproduces the dataset exactly (hence its row
count and all column values), provided the dataset is nonempty and
rectangular, and each column is as cleaning and loading leave it:
a numeric column of missing cells and finitely-representable values, or a
text column of missing cells and non-empty text values at least one of which
does not parse as a number. -/
theorem claim_c6_round_trip (df : Df) (filename encoding : String)
    (hne : df ≠ [])
    (hrect : ∀ p ∈ df, p.2.length = nRows df)
    (hok : ∀ p ∈ df, colOk p.2 = true) :
    ∃ res, save_processed_data (some df) filename = some res ∧
      (load_kosis_csv (fun _ _ => FileResult.content res.rows) filename encoding).1 =
        some df := by
  refine ⟨⟨DATA_DIR ++ "processed_" ++ filename, "utf-8-sig", toCsvRows df⟩, rfl, ?_⟩
  have h := readCsv_toCsvRows df hne hrect hok
  simp only [load_kosis_csv, h]

unseal Rat.mul Rat.add Rat.inv in
/-- Witness for C6: a two-column frame (a numeric column with a missing
entry, a text column with a non-numeric cell) survives the write–reload
round trip. -/
theorem claim_c6_witness :
    (([("연도", [Cell.num 2020, Cell.null]), ("직업", [Cell.str "개발자", Cell.str "1,2"])] :
        Df) ≠ []) ∧
    (∀ p ∈ ([("연도", [Cell.num 2020, Cell.null]),
        ("직업", [Cell.str "개발자", Cell.str "1,2"])] : Df),
      p.2.length = nRows [("연도", [Cell.num 2020, Cell.null]),
        ("직업", [Cell.str "개발자", Cell.str "1,2"])]) ∧
    (∀ p ∈ ([("연도", [Cell.num 2020, Cell.null]),
        ("직업", [Cell.str "개발자", Cell.str "1,2"])] : Df), colOk p.2 = true) ∧
    (∃ res, save_processed_data
        (some [("연도", [Cell.num 2020, Cell.null]),
          ("직업", [Cell.str "개발자", Cell.str "1,2"])]) "population.csv" = some res ∧
      (load_kosis_csv (fun _ _ => FileResult.content res.rows) "population.csv" "utf-8-sig").1 =
        some [("연도", [Cell.num 2020, Cell.null]),
          ("직업", [Cell.str "개발자", Cell.str "1,2"])]) := by
  refine ⟨by decide, by decide, by decide,
    claim_c6_round_trip _ "population.csv" "utf-8-sig" (by decide) (by decide) (by decide)⟩

unseal Rat.mul Rat.add Rat.inv in
/-- Witness for C9: a one-column frame with a numeric and a missing cell is
written to `data/processed_population.csv` as header `a` and rows `1.0`,
empty — one field per column, no index column. -/
theorem claim_c9_witness :
    (save_processed_data (some [("a", [Cell.num 1, Cell.null])]) "population.csv" =
      some ⟨DATA_DIR ++ "processed_" ++ "population.csv", "utf-8-sig",
        toCsvRows [("a", [Cell.num 1, Cell.null])]⟩) ∧
    ((toCsvRows [("a", [Cell.num 1, Cell.null])]).getD 0 [] =
      [("a", [Cell.num 1, Cell.null])].map Prod.fst) ∧
    (["1.0"].length = [("a", [Cell.num 1, Cell.null])].length) ∧
    toCsvRows [("a", [Cell.num 1, Cell.null])] = [["a"], ["1.0"], [""]] := by
  have hrows : toCsvRows [("a", [Cell.num 1, Cell.null])] = [["a"], ["1.0"], [""]] := by decide
  refine ⟨(claim_c9_save_spec [("a", [Cell.num 1, Cell.null])] "population.csv").1,
    (claim_c9_save_spec [("a", [Cell.num 1, Cell.null])] "population.csv").2.1, ?_, hrows⟩
  exact (claim_c9_save_spec [("a", [Cell.num 1, Cell.null])] "population.csv").2.2 ["1.0"]
    (by rw [hrows]; decide)
